import Mathlib

/-!
Verification of the line-targeted lint-fixer `fix_eslint_errors.py`.

The script rewrites one line of a text document per invocation.  Each rule
splits the document on newline characters, checks that the (1-based) target
line number is in bounds, rewrites that single line with Python `re`
substitutions, and re-joins the lines.  We embed documents as `List Char`,
the split/join round trip, a deterministic matcher for exactly the regex
fragment the script constructs, and the five rule functions.
-/

/-- A Python string, embedded as its list of characters. -/
abbrev PyStr := List Char

/-- Coerce a Lean string literal to the `PyStr` embedding. -/
def str (s : String) : PyStr := s.toList

/-- Python `content.split('\n')`: split a string at every newline.
`split` of the empty string is `[""]`, and a trailing newline yields a
trailing empty line, exactly as in Python. -/
def splitNL : PyStr → List PyStr
  | [] => [[]]
  | c :: cs =>
    if c = '\n' then [] :: splitNL cs
    else
      match splitNL cs with
      | [] => [[c]]
      | l :: ls => (c :: l) :: ls

/-- Python `'\n'.join(lines)`. -/
def joinNL : List PyStr → PyStr
  | [] => []
  | [l] => l
  | l :: ls => l ++ '\n' :: joinNL ls

theorem splitNL_ne_nil (s : PyStr) : splitNL s ≠ [] := by
  cases s with
  | nil => simp [splitNL]
  | cons c cs =>
    simp only [splitNL]
    split
    · simp
    · split <;> simp

theorem joinNL_splitNL (s : PyStr) : joinNL (splitNL s) = s := by
  induction s with
  | nil => rfl
  | cons c cs ih =>
    simp only [splitNL]
    split
    · rename_i hc
      subst hc
      rcases h : splitNL cs with _ | ⟨l, ls⟩
      · exact absurd h (splitNL_ne_nil cs)
      · rw [h] at ih
        simp only [joinNL]
        rw [ih]
        simp
    · rcases h : splitNL cs with _ | ⟨l, ls⟩
      · exact absurd h (splitNL_ne_nil cs)
      · rw [h] at ih
        cases ls with
        | nil => simpa [joinNL] using ih
        | cons l2 ls2 =>
          simp only [joinNL, List.cons_append] at ih ⊢
          rw [ih]

theorem noNL_splitNL (s : PyStr) : ∀ l ∈ splitNL s, '\n' ∉ l := by
  induction s with
  | nil =>
    intro l hl
    simp [splitNL] at hl
    simp [hl]
  | cons c cs ih =>
    intro l hl
    simp only [splitNL] at hl
    by_cases hc : c = '\n'
    · rw [if_pos hc] at hl
      simp only [List.mem_cons] at hl
      rcases hl with hl | hl
      · simp [hl]
      · exact ih l hl
    · rw [if_neg hc] at hl
      rcases h : splitNL cs with _ | ⟨l0, ls⟩
      · exact absurd h (splitNL_ne_nil cs)
      · rw [h] at hl
        simp only [List.mem_cons] at hl
        rcases hl with hl | hl
        · subst hl
          intro hmem
          simp only [List.mem_cons] at hmem
          rcases hmem with hmem | hmem
          · exact hc hmem.symm
          · exact ih l0 (h ▸ List.mem_cons_self l0 ls) hmem
        · exact ih l (h ▸ List.mem_cons_of_mem l0 hl)

theorem splitNL_of_noNL (l : PyStr) (h : '\n' ∉ l) : splitNL l = [l] := by
  induction l with
  | nil => rfl
  | cons c cs ih =>
    simp only [List.mem_cons, not_or] at h
    simp only [splitNL]
    rw [if_neg (fun hc => h.1 hc.symm), ih h.2]

theorem splitNL_append_nl (l t : PyStr) (h : '\n' ∉ l) :
    splitNL (l ++ '\n' :: t) = l :: splitNL t := by
  induction l with
  | nil => simp [splitNL]
  | cons c cs ih =>
    simp only [List.mem_cons, not_or] at h
    simp only [List.cons_append, splitNL]
    rw [if_neg (fun hc => h.1 hc.symm)]
    have hcs : splitNL (cs ++ '\n' :: t) = cs :: splitNL t := ih h.2
    simp only [List.append_eq] at hcs ⊢
    rw [hcs]

theorem splitNL_joinNL (ls : List PyStr) (hne : ls ≠ [])
    (hnl : ∀ l ∈ ls, '\n' ∉ l) : splitNL (joinNL ls) = ls := by
  induction ls with
  | nil => exact absurd rfl hne
  | cons l tail ih =>
    cases tail with
    | nil =>
      simp only [joinNL]
      exact splitNL_of_noNL l (hnl l (List.mem_cons_self l []))
    | cons l2 ls2 =>
      simp only [joinNL]
      rw [splitNL_append_nl l _ (hnl l (List.mem_cons_self l _))]
      rw [ih (by simp) (fun x hx => hnl x (List.mem_cons_of_mem l hx))]

/-- Python `\w` on the ASCII inputs this script handles: letters, digits
and underscore. -/
def isWordChar (c : Char) : Bool := c.isAlphanum || c = '_'

/-- Python `\s` on ASCII: space, tab, newline, carriage return, form feed
and vertical tab. -/
def isSpaceChar (c : Char) : Bool :=
  c = ' ' || c = '\t' || c = '\n' || c = '\r' || c = '\x0b' || c = '\x0c'

/-- One atom of the regex fragment the script builds: a literal character,
`\s*`, `\s+`, the zero-width word boundary `\b`, or an optional literal
(`,?`). -/
inductive RAtom where
  | lit : Char → RAtom
  | ws0 : RAtom
  | ws1 : RAtom
  | wb : RAtom
  | optC : Char → RAtom
deriving DecidableEq

/-- Python `\b`: the position between `prev` (the character just before the
current position, none at the start of the string) and the rest of the
string is a word boundary iff exactly one side is a word character. -/
def wordBoundary (prev : Option Char) (s : PyStr) : Bool :=
  (match prev with | none => false | some c => isWordChar c) !=
    (match s with | [] => false | c :: _ => isWordChar c)

/-- Greedily consume whitespace characters, tracking the previous
character. -/
def chompWs : Option Char → PyStr → Option Char × PyStr
  | prev, [] => (prev, [])
  | prev, x :: xs => if isSpaceChar x then chompWs (some x) xs else (prev, x :: xs)

/-- Match a pattern at the current position.  Returns the previous-character
state and the remaining input after the match.  Greedy and deterministic;
this coincides with Python backtracking for every pattern the script
builds, because in those patterns no quantified atom (`\s*`, `\s+`, `,?`)
can consume a character that the following atom could also start with. -/
def matchA : Option Char → List RAtom → PyStr → Option (Option Char × PyStr)
  | prev, [], s => some (prev, s)
  | _, .lit c :: p, s =>
    match s with
    | [] => none
    | x :: xs => if x = c then matchA (some x) p xs else none
  | prev, .ws0 :: p, s =>
    matchA (chompWs prev s).1 p (chompWs prev s).2
  | _, .ws1 :: p, s =>
    match s with
    | [] => none
    | x :: xs =>
      if isSpaceChar x then matchA (chompWs (some x) xs).1 p (chompWs (some x) xs).2
      else none
  | prev, .wb :: p, s =>
    if wordBoundary prev s then matchA prev p s else none
  | prev, .optC c :: p, s =>
    match s with
    | [] => matchA prev p []
    | x :: xs => if x = c then matchA (some x) p xs else matchA prev p (x :: xs)

/-- Python `re.search(pattern, line) is not None`: does the pattern match
starting at some position? -/
def searchA (p : List RAtom) : Option Char → PyStr → Bool
  | prev, [] => (matchA prev p []).isSome
  | prev, x :: xs => (matchA prev p (x :: xs)).isSome || searchA p (some x) xs

/-- Python `re.sub(pattern, repl, line, count=1)`: replace the leftmost
match only. -/
def subFirst (p : List RAtom) (r : PyStr) : Option Char → PyStr → PyStr
  | prev, [] => if (matchA prev p []).isSome then r else []
  | prev, x :: xs =>
    match matchA prev p (x :: xs) with
    | some (_, rest) => r ++ rest
    | none => x :: subFirst p r (some x) xs

/-- Python `re.sub(pattern, repl, line)`: replace every non-overlapping
match, scanning left to right.  `fuel` bounds the recursion; every step
consumes at least one character of input per unit of fuel, so
`fuel = s.length + 1` (see `subAll`) never runs out. -/
def subAllF (p : List RAtom) (r : PyStr) : Nat → Option Char → PyStr → PyStr
  | 0, _, s => s
  | fuel + 1, prev, s =>
    match matchA prev p s with
    | none =>
      match s with
      | [] => []
      | x :: xs => x :: subAllF p r fuel (some x) xs
    | some (pr, rest) =>
      if rest.length < s.length then r ++ subAllF p r fuel pr rest
      else
        match s with
        | [] => r
        | x :: xs => r ++ x :: subAllF p r fuel (some x) xs

/-- Python `re.sub(pattern, repl, line)` applied to a whole line. -/
def subAll (p : List RAtom) (r : PyStr) (s : PyStr) : PyStr :=
  subAllF p r (s.length + 1) none s

/-- The characters of a Lean string literal as literal atoms. -/
def litsOf (s : String) : List RAtom := s.toList.map RAtom.lit

/-- The characters of an embedded Python string as literal atoms. -/
def litsOfL (v : PyStr) : List RAtom := v.map RAtom.lit

/-- The ordered `(pattern, replacement)` table of
`fix_unused_request_param`:
`(r'\brequest\s*:', r'_request:')`, `(r'\brequest\s*\)', r'_request)')`,
`(r'\brequest\s*,', r'_request,')`. -/
def requestPatterns : List (List RAtom × PyStr) :=
  [([RAtom.wb] ++ litsOf "request" ++ [RAtom.ws0, RAtom.lit ':'], str "_request:"),
   ([RAtom.wb] ++ litsOf "request" ++ [RAtom.ws0, RAtom.lit ')'], str "_request)"),
   ([RAtom.wb] ++ litsOf "request" ++ [RAtom.ws0, RAtom.lit ','], str "_request,")]

/-- The ordered `(pattern, replacement)` table of `fix_unused_var` for a
given `var_name`:
`(rf'\bconst\s+{v}\b', f'const _{v}')`, `(rf'\blet\s+{v}\b', f'let _{v}')`,
`(rf'\b{v}\s*:', f'_{v}:')`, `(rf'\b{v}\s*\)', f'_{v})')`,
`(rf'\b{v}\s*,', f'_{v},')`, `(rf'=\s*{v}\b', f'= _{v}')`. -/
def varPatterns (v : PyStr) : List (List RAtom × PyStr) :=
  [([RAtom.wb] ++ litsOf "const" ++ [RAtom.ws1] ++ litsOfL v ++ [RAtom.wb],
     str "const _" ++ v),
   ([RAtom.wb] ++ litsOf "let" ++ [RAtom.ws1] ++ litsOfL v ++ [RAtom.wb],
     str "let _" ++ v),
   ([RAtom.wb] ++ litsOfL v ++ [RAtom.ws0, RAtom.lit ':'], '_' :: v ++ str ":"),
   ([RAtom.wb] ++ litsOfL v ++ [RAtom.ws0, RAtom.lit ')'], '_' :: v ++ str ")"),
   ([RAtom.wb] ++ litsOfL v ++ [RAtom.ws0, RAtom.lit ','], '_' :: v ++ str ","),
   ([RAtom.lit '=', RAtom.ws0] ++ litsOfL v ++ [RAtom.wb], str "= _" ++ v)]

/-- The substitution table of `fix_explicit_any`:
`(r':\s*any\b', ': unknown')`, `(r'<any>', '<unknown>')`,
`(r'\bas\s+any\b', 'as unknown')`.  Unlike the two tables above, every
entry is applied to the line. -/
def anyPatterns : List (List RAtom × PyStr) :=
  [([RAtom.lit ':', RAtom.ws0] ++ litsOf "any" ++ [RAtom.wb], str ": unknown"),
   (litsOf "<any>", str "<unknown>"),
   ([RAtom.wb] ++ litsOf "as" ++ [RAtom.ws1] ++ litsOf "any" ++ [RAtom.wb],
     str "as unknown")]

/-- The substitution table of `fix_empty_object_type`:
`(r':\s*\{\s*\}', ': unknown')`, `(r'<\{\s*\}>', '<unknown>')`.  Both
entries are applied to the line. -/
def eotPatterns : List (List RAtom × PyStr) :=
  [([RAtom.lit ':', RAtom.ws0, RAtom.lit '{', RAtom.ws0, RAtom.lit '}'],
     str ": unknown"),
   ([RAtom.lit '<', RAtom.lit '{', RAtom.ws0, RAtom.lit '}', RAtom.lit '>'],
     str "<unknown>")]

/-- `remove_unused_import`'s single-import test,
`re.match(rf'import\s+\{{\s*{import_name}\s*\}}', line)` (anchored at the
start of the line). -/
def importPat (name : PyStr) : List RAtom :=
  litsOf "import" ++ [RAtom.ws1, RAtom.lit '{', RAtom.ws0] ++ litsOfL name ++
    [RAtom.ws0, RAtom.lit '}']

/-- The substitution chain of `remove_unused_import`'s destructured branch:
remove the name (`rf',?\s*{name}\s*,?'` to the empty string), collapse
doubled commas (`r',\s*,'` to `,`), then strip a comma adjacent to a brace
(`r'\{\s*,'` to `{`, `r',\s*\}'` to `}`).  Every entry is applied to the
line. -/
def ruiSubPatterns (name : PyStr) : List (List RAtom × PyStr) :=
  [([RAtom.optC ',', RAtom.ws0] ++ litsOfL name ++ [RAtom.ws0, RAtom.optC ','],
     []),
   ([RAtom.lit ',', RAtom.ws0, RAtom.lit ','], str ","),
   ([RAtom.lit '{', RAtom.ws0, RAtom.lit ','], str "\x7b"),
   ([RAtom.lit ',', RAtom.ws0, RAtom.lit '}'], str "\x7d")]

/-- The `for pattern, replacement in patterns: if re.search: re.sub(...);
break` loop shape shared by `fix_unused_request_param` (which substitutes
every occurrence: `re.sub` without a count). -/
def applyFirstAll : List (List RAtom × PyStr) → PyStr → PyStr
  | [], line => line
  | (p, r) :: pats, line =>
    if searchA p none line then subAll p r line else applyFirstAll pats line

/-- The same first-match-wins loop with `re.sub(..., count=1)`, as in
`fix_unused_var`. -/
def applyFirstOnce : List (List RAtom × PyStr) → PyStr → PyStr
  | [], line => line
  | (p, r) :: pats, line =>
    if searchA p none line then subFirst p r none line
    else applyFirstOnce pats line

/-- A chain of unconditional `re.sub` substitutions, as in
`fix_explicit_any`, `fix_empty_object_type` and the cleanup steps of
`remove_unused_import`. -/
def applyEvery : List (List RAtom × PyStr) → PyStr → PyStr
  | [], line => line
  | (p, r) :: pats, line => applyEvery pats (subAll p r line)

/-- The per-line rewrite of `fix_unused_request_param`. -/
def uprLine (line : PyStr) : PyStr := applyFirstAll requestPatterns line

/-- The per-line rewrite of `fix_unused_var`. -/
def uvLine (v : PyStr) (line : PyStr) : PyStr :=
  applyFirstOnce (varPatterns v) line

/-- The per-line rewrite of `fix_explicit_any`. -/
def anyLine (line : PyStr) : PyStr := applyEvery anyPatterns line

/-- The per-line rewrite of `fix_empty_object_type`. -/
def eotLine (line : PyStr) : PyStr := applyEvery eotPatterns line

/-- The per-line rewrite of `remove_unused_import`: blank the whole line if
it is a single import of `name`, otherwise remove `name` from the
destructured list and clean up commas. -/
def ruiLine (name : PyStr) (line : PyStr) : PyStr :=
  if (matchA none (importPat name) line).isSome then []
  else applyEvery (ruiSubPatterns name) line

/-- The shared skeleton of all five rules: `lines = content.split('\n'); if
0 <= line_num - 1 < len(lines): lines[line_num - 1] = f(lines[line_num -
1])`, on the list of lines. -/
def updateAt (line_num : Int) (f : PyStr → PyStr) (ls : List PyStr) :
    List PyStr :=
  if 0 ≤ line_num - 1 ∧ line_num - 1 < (ls.length : Int) then
    ls.set (line_num - 1).toNat (f (ls.getD (line_num - 1).toNat []))
  else ls

/-- The source interpolates `detail` verbatim into regular-expression
pattern strings such as `rf'\bconst\s+{detail}\b'`.  This predicate
delimits the details modelled here: nonempty strings of word characters,
on which every constructed pattern compiles and denotes the detail
literally.  A detail outside this set can change the regex syntax; for
example detail `(` yields the pattern `\bconst\s+(\b`, which CPython
rejects with `re.error` (missing closing parenthesis, unterminated
subpattern), modelled below as `none`. -/
def regexSafeDetail (v : PyStr) : Bool := !v.isEmpty && v.all isWordChar

/-- `fix_unused_request_param(content, line_num)`: rename an unused
`request` parameter on the target line to `_request`.  Hardcoded to the
identifier `request`; builds no pattern from a detail, so it never
raises. -/
def fix_unused_request_param (content : PyStr) (line_num : Int) : PyStr :=
  joinNL (updateAt line_num uprLine (splitNL content))

/-- `fix_unused_var(content, line_num, var_name)`: prefix the unused
variable on the target line with an underscore.  `none` models the
`re.error` CPython raises when `var_name` breaks the interpolated pattern
syntax; the bounds check precedes any pattern use, so an out-of-bounds
line never raises. -/
def fix_unused_var (content : PyStr) (line_num : Int) (var_name : PyStr) :
    Option PyStr :=
  if 0 ≤ line_num - 1 ∧ line_num - 1 < ((splitNL content).length : Int) then
    if regexSafeDetail var_name then
      some (joinNL (updateAt line_num (uvLine var_name) (splitNL content)))
    else none
  else some (joinNL (splitNL content))

/-- `fix_explicit_any(content, line_num)`: replace `: any`, `<any>` and
`as any` on the target line with the `unknown` forms. -/
def fix_explicit_any (content : PyStr) (line_num : Int) : PyStr :=
  joinNL (updateAt line_num anyLine (splitNL content))

/-- `fix_empty_object_type(content, line_num)`: replace `: {}` and `<{}>`
on the target line with the `unknown` forms. -/
def fix_empty_object_type (content : PyStr) (line_num : Int) : PyStr :=
  joinNL (updateAt line_num eotLine (splitNL content))

/-- `remove_unused_import(content, line_num, import_name)`: blank a
single-import line, or remove the name from a destructured import list.
`none` models the `re.error` raised for a detail that breaks the
interpolated pattern syntax (the bounds check comes first). -/
def remove_unused_import (content : PyStr) (line_num : Int)
    (import_name : PyStr) : Option PyStr :=
  if 0 ≤ line_num - 1 ∧ line_num - 1 < ((splitNL content).length : Int) then
    if regexSafeDetail import_name then
      some (joinNL (updateAt line_num (ruiLine import_name) (splitNL content)))
    else none
  else some (joinNL (splitNL content))

/-- The five diagnostic categories dispatched in `main`. -/
inductive FixType where
  | unused_param : FixType
  | unused_var : FixType
  | explicit_any : FixType
  | empty_object : FixType
  | unused_import : FixType
deriving DecidableEq

/-- The `if fix_type == ... elif ...` dispatch in `main`: the rewrite
engine's entry point.  The `unused_param`, `explicit_any` and
`empty_object` branches do not pass `detail` to their rule. -/
def applyFix (content : PyStr) (line_num : Int) (fix_type : FixType)
    (detail : PyStr) : Option PyStr :=
  match fix_type with
  | .unused_param => some (fix_unused_request_param content line_num)
  | .unused_var => fix_unused_var content line_num detail
  | .explicit_any => some (fix_explicit_any content line_num)
  | .empty_object => some (fix_empty_object_type content line_num)
  | .unused_import => remove_unused_import content line_num detail

/-- The per-line rewrite selected by each category. -/
def lineFn : FixType → PyStr → PyStr → PyStr
  | .unused_param, _ => uprLine
  | .unused_var, d => uvLine d
  | .explicit_any, _ => anyLine
  | .empty_object, _ => eotLine
  | .unused_import, d => ruiLine d

/-- Does the rule of this category consume the detail (interpolating it
into its patterns)? -/
def detailUsed : FixType → Bool
  | .unused_var => true
  | .unused_import => true
  | _ => false

/-- No sub-pattern of the category's rule matches the line (for
`unused_import`, additionally the anchored single-import pattern does not
match). -/
def noRuleMatch (t : FixType) (d : PyStr) (line : PyStr) : Bool :=
  match t with
  | .unused_param => requestPatterns.all fun pr => !searchA pr.1 none line
  | .unused_var => (varPatterns d).all fun pr => !searchA pr.1 none line
  | .explicit_any => anyPatterns.all fun pr => !searchA pr.1 none line
  | .empty_object => eotPatterns.all fun pr => !searchA pr.1 none line
  | .unused_import =>
    !(matchA none (importPat d) line).isSome &&
      (ruiSubPatterns d).all fun pr => !searchA pr.1 none line

theorem chompWs_suffix (s : PyStr) : ∀ prev, (chompWs prev s).2 <:+ s := by
  induction s with
  | nil => intro prev; exact List.suffix_refl _
  | cons x xs ih =>
    intro prev
    simp only [chompWs]
    split
    · exact (ih (some x)).trans (List.suffix_cons x xs)
    · exact List.suffix_refl _

theorem matchA_suffix (p : List RAtom) :
    ∀ prev s pr rest, matchA prev p s = some (pr, rest) → rest <:+ s := by
  induction p with
  | nil =>
    intro prev s pr rest h
    simp only [matchA, Option.some.injEq, Prod.mk.injEq] at h
    rw [← h.2]
  | cons a p ih =>
    intro prev s pr rest h
    cases a with
    | lit c =>
      cases s with
      | nil => simp [matchA] at h
      | cons x xs =>
        simp only [matchA] at h
        by_cases hx : x = c
        · rw [if_pos hx] at h
          exact (ih _ _ _ _ h).trans (List.suffix_cons x xs)
        · rw [if_neg hx] at h
          exact absurd h (by simp)
    | ws0 =>
      simp only [matchA] at h
      exact (ih _ _ _ _ h).trans (chompWs_suffix s prev)
    | ws1 =>
      cases s with
      | nil => simp [matchA] at h
      | cons x xs =>
        simp only [matchA] at h
        by_cases hx : isSpaceChar x = true
        · rw [if_pos hx] at h
          exact ((ih _ _ _ _ h).trans (chompWs_suffix xs (some x))).trans
            (List.suffix_cons x xs)
        · rw [if_neg hx] at h
          exact absurd h (by simp)
    | wb =>
      simp only [matchA] at h
      by_cases hw : wordBoundary prev s = true
      · rw [if_pos hw] at h
        exact ih _ _ _ _ h
      · rw [if_neg hw] at h
        exact absurd h (by simp)
    | optC c =>
      cases s with
      | nil =>
        simp only [matchA] at h
        exact ih _ _ _ _ h
      | cons x xs =>
        simp only [matchA] at h
        by_cases hx : x = c
        · rw [if_pos hx] at h
          exact (ih _ _ _ _ h).trans (List.suffix_cons x xs)
        · rw [if_neg hx] at h
          exact ih _ _ _ _ h

theorem mem_subAllF (p : List RAtom) (r : PyStr) :
    ∀ fuel prev s c, c ∈ subAllF p r fuel prev s → c ∈ s ∨ c ∈ r := by
  intro fuel
  induction fuel with
  | zero => intro prev s c hc; exact Or.inl hc
  | succ fuel ih =>
    intro prev s c hc
    rcases hm : matchA prev p s with _ | ⟨pr, rest⟩
    · cases s with
      | nil => simp [subAllF, hm] at hc
      | cons x xs =>
        simp only [subAllF, hm, List.mem_cons] at hc
        rcases hc with hc | hc
        · exact Or.inl (by simp [hc])
        · rcases ih _ _ _ hc with h | h
          · exact Or.inl (List.mem_cons_of_mem x h)
          · exact Or.inr h
    · have hsub : rest ⊆ s := (matchA_suffix p prev s pr rest hm).subset
      cases s with
      | nil =>
        simp [subAllF, hm] at hc
        exact Or.inr hc
      | cons x xs =>
        simp only [subAllF, hm] at hc
        by_cases hl : rest.length < (x :: xs).length
        · rw [if_pos hl] at hc
          rcases List.mem_append.mp hc with h | h
          · exact Or.inr h
          · rcases ih _ _ _ h with h2 | h2
            · exact Or.inl (hsub h2)
            · exact Or.inr h2
        · rw [if_neg hl] at hc
          rcases List.mem_append.mp hc with h | h
          · exact Or.inr h
          · simp only [List.mem_cons] at h
            rcases h with h | h
            · exact Or.inl (by simp [h])
            · rcases ih _ _ _ h with h2 | h2
              · exact Or.inl (List.mem_cons_of_mem x h2)
              · exact Or.inr h2

theorem mem_subFirst (p : List RAtom) (r : PyStr) :
    ∀ s prev c, c ∈ subFirst p r prev s → c ∈ s ∨ c ∈ r := by
  intro s
  induction s with
  | nil =>
    intro prev c hc
    simp only [subFirst] at hc
    split at hc
    · exact Or.inr hc
    · simp at hc
  | cons x xs ih =>
    intro prev c hc
    simp only [subFirst] at hc
    rcases hm : matchA prev p (x :: xs) with _ | ⟨pr, rest⟩
    · rw [hm] at hc
      simp only [List.mem_cons] at hc
      rcases hc with hc | hc
      · exact Or.inl (by simp [hc])
      · rcases ih _ _ hc with h | h
        · exact Or.inl (List.mem_cons_of_mem x h)
        · exact Or.inr h
    · rw [hm] at hc
      rcases List.mem_append.mp hc with h | h
      · exact Or.inr h
      · exact Or.inl ((matchA_suffix p prev _ pr rest hm).subset h)

theorem matchA_none_of_searchA_false (p : List RAtom) (prev : Option Char)
    (s : PyStr) (h : searchA p prev s = false) : matchA prev p s = none := by
  cases s with
  | nil =>
    simp only [searchA] at h
    exact Option.not_isSome_iff_eq_none.mp (by simp [h])
  | cons x xs =>
    simp only [searchA, Bool.or_eq_false_iff] at h
    exact Option.not_isSome_iff_eq_none.mp (by simp [h.1])

theorem searchA_tail_false (p : List RAtom) (prev : Option Char) (x : Char)
    (xs : PyStr) (h : searchA p prev (x :: xs) = false) :
    searchA p (some x) xs = false := by
  simp only [searchA, Bool.or_eq_false_iff] at h
  exact h.2

theorem subAllF_id_of_not_search (p : List RAtom) (r : PyStr) :
    ∀ fuel prev s, searchA p prev s = false → subAllF p r fuel prev s = s := by
  intro fuel
  induction fuel with
  | zero => intro prev s _; rfl
  | succ fuel ih =>
    intro prev s h
    have hm := matchA_none_of_searchA_false p prev s h
    cases s with
    | nil => simp [subAllF, hm]
    | cons x xs =>
      simp only [subAllF, hm]
      rw [ih (some x) xs (searchA_tail_false p prev x xs h)]

theorem subAll_id_of_not_search (p : List RAtom) (r : PyStr) (s : PyStr)
    (h : searchA p none s = false) : subAll p r s = s :=
  subAllF_id_of_not_search p r (s.length + 1) none s h

theorem subFirst_id_of_not_search (p : List RAtom) (r : PyStr) :
    ∀ s prev, searchA p prev s = false → subFirst p r prev s = s := by
  intro s
  induction s with
  | nil =>
    intro prev h
    simp only [subFirst]
    rw [matchA_none_of_searchA_false p prev [] h]
    simp
  | cons x xs ih =>
    intro prev h
    simp only [subFirst]
    rw [matchA_none_of_searchA_false p prev (x :: xs) h]
    rw [ih (some x) (searchA_tail_false p prev x xs h)]

theorem applyEvery_id_of_no_search (pats : List (List RAtom × PyStr)) :
    ∀ line, (∀ pr ∈ pats, searchA pr.1 none line = false) →
    applyEvery pats line = line := by
  induction pats with
  | nil => intro line _; rfl
  | cons hd pats ih =>
    intro line h
    rcases hd with ⟨p, r⟩
    simp only [applyEvery]
    rw [subAll_id_of_not_search p r line (h (p, r) (List.mem_cons_self _ _))]
    exact ih line fun pr hpr => h pr (List.mem_cons_of_mem _ hpr)

theorem applyFirstAll_id_of_no_search (pats : List (List RAtom × PyStr)) :
    ∀ line, (∀ pr ∈ pats, searchA pr.1 none line = false) →
    applyFirstAll pats line = line := by
  induction pats with
  | nil => intro line _; rfl
  | cons hd pats ih =>
    intro line h
    rcases hd with ⟨p, r⟩
    simp only [applyFirstAll]
    rw [if_neg (by simp [h (p, r) (List.mem_cons_self _ _)])]
    exact ih line fun pr hpr => h pr (List.mem_cons_of_mem _ hpr)

theorem applyFirstOnce_id_of_no_search (pats : List (List RAtom × PyStr)) :
    ∀ line, (∀ pr ∈ pats, searchA pr.1 none line = false) →
    applyFirstOnce pats line = line := by
  induction pats with
  | nil => intro line _; rfl
  | cons hd pats ih =>
    intro line h
    rcases hd with ⟨p, r⟩
    simp only [applyFirstOnce]
    rw [if_neg (by simp [h (p, r) (List.mem_cons_self _ _)])]
    exact ih line fun pr hpr => h pr (List.mem_cons_of_mem _ hpr)

theorem noNL_subAll (p : List RAtom) (r : PyStr) (line : PyStr)
    (hl : '\n' ∉ line) (hr : '\n' ∉ r) : '\n' ∉ subAll p r line := by
  intro hmem
  rcases mem_subAllF p r (line.length + 1) none line '\n' hmem with h | h
  · exact hl h
  · exact hr h

theorem noNL_subFirst (p : List RAtom) (r : PyStr) (prev : Option Char)
    (line : PyStr) (hl : '\n' ∉ line) (hr : '\n' ∉ r) :
    '\n' ∉ subFirst p r prev line := by
  intro hmem
  rcases mem_subFirst p r line prev '\n' hmem with h | h
  · exact hl h
  · exact hr h

theorem noNL_applyEvery (pats : List (List RAtom × PyStr)) :
    ∀ line, (∀ pr ∈ pats, '\n' ∉ pr.2) → '\n' ∉ line →
    '\n' ∉ applyEvery pats line := by
  induction pats with
  | nil => intro line _ hl; exact hl
  | cons hd pats ih =>
    intro line hr hl
    rcases hd with ⟨p, r⟩
    simp only [applyEvery]
    exact ih _ (fun pr hpr => hr pr (List.mem_cons_of_mem _ hpr))
      (noNL_subAll p r line hl (hr (p, r) (List.mem_cons_self _ _)))

theorem noNL_applyFirstAll (pats : List (List RAtom × PyStr)) :
    ∀ line, (∀ pr ∈ pats, '\n' ∉ pr.2) → '\n' ∉ line →
    '\n' ∉ applyFirstAll pats line := by
  induction pats with
  | nil => intro line _ hl; exact hl
  | cons hd pats ih =>
    intro line hr hl
    rcases hd with ⟨p, r⟩
    simp only [applyFirstAll]
    split
    · exact noNL_subAll p r line hl (hr (p, r) (List.mem_cons_self _ _))
    · exact ih line (fun pr hpr => hr pr (List.mem_cons_of_mem _ hpr)) hl

theorem noNL_applyFirstOnce (pats : List (List RAtom × PyStr)) :
    ∀ line, (∀ pr ∈ pats, '\n' ∉ pr.2) → '\n' ∉ line →
    '\n' ∉ applyFirstOnce pats line := by
  induction pats with
  | nil => intro line _ hl; exact hl
  | cons hd pats ih =>
    intro line hr hl
    rcases hd with ⟨p, r⟩
    simp only [applyFirstOnce]
    split
    · exact noNL_subFirst p r none line hl (hr (p, r) (List.mem_cons_self _ _))
    · exact ih line (fun pr hpr => hr pr (List.mem_cons_of_mem _ hpr)) hl

theorem noNL_of_safe (v : PyStr) (hv : regexSafeDetail v = true) :
    '\n' ∉ v := by
  intro hmem
  simp only [regexSafeDetail, Bool.and_eq_true, List.all_eq_true] at hv
  have := hv.2 '\n' hmem
  simp [isWordChar, Char.isAlphanum, Char.isAlpha, Char.isDigit,
    Char.isUpper, Char.isLower] at this

theorem noNL_uprLine (line : PyStr) (hl : '\n' ∉ line) :
    '\n' ∉ uprLine line :=
  noNL_applyFirstAll requestPatterns line (by decide) hl

theorem noNL_uvLine (v : PyStr) (hv : regexSafeDetail v = true)
    (line : PyStr) (hl : '\n' ∉ line) : '\n' ∉ uvLine v line := by
  apply noNL_applyFirstOnce (varPatterns v) line _ hl
  intro pr hpr
  have hv' : '\n' ∉ v := noNL_of_safe v hv
  simp only [varPatterns, List.mem_cons, List.not_mem_nil, or_false] at hpr
  rcases hpr with h | h | h | h | h | h
  · subst h
    intro hmem
    rcases List.mem_append.mp hmem with h2 | h2
    · exact absurd h2 (by decide)
    · exact hv' h2
  · subst h
    intro hmem
    rcases List.mem_append.mp hmem with h2 | h2
    · exact absurd h2 (by decide)
    · exact hv' h2
  · subst h
    intro hmem
    rcases List.mem_cons.mp hmem with h2 | h2
    · exact absurd h2 (by decide)
    · rcases List.mem_append.mp h2 with h3 | h3
      · exact hv' h3
      · exact absurd h3 (by decide)
  · subst h
    intro hmem
    rcases List.mem_cons.mp hmem with h2 | h2
    · exact absurd h2 (by decide)
    · rcases List.mem_append.mp h2 with h3 | h3
      · exact hv' h3
      · exact absurd h3 (by decide)
  · subst h
    intro hmem
    rcases List.mem_cons.mp hmem with h2 | h2
    · exact absurd h2 (by decide)
    · rcases List.mem_append.mp h2 with h3 | h3
      · exact hv' h3
      · exact absurd h3 (by decide)
  · subst h
    intro hmem
    rcases List.mem_append.mp hmem with h2 | h2
    · exact absurd h2 (by decide)
    · exact hv' h2

theorem noNL_anyLine (line : PyStr) (hl : '\n' ∉ line) :
    '\n' ∉ anyLine line :=
  noNL_applyEvery anyPatterns line (by decide) hl

theorem noNL_eotLine (line : PyStr) (hl : '\n' ∉ line) :
    '\n' ∉ eotLine line :=
  noNL_applyEvery eotPatterns line (by decide) hl

theorem noNL_ruiLine (name : PyStr) (line : PyStr) (hl : '\n' ∉ line) :
    '\n' ∉ ruiLine name line := by
  simp only [ruiLine]
  split
  · simp
  · apply noNL_applyEvery (ruiSubPatterns name) line _ hl
    intro pr hpr
    simp only [ruiSubPatterns, List.mem_cons, List.not_mem_nil, or_false]
      at hpr
    rcases hpr with h | h | h | h
    · subst h
      simp
    · subst h
      decide
    · subst h
      decide
    · subst h
      decide

theorem set_getElem_self {α : Type} (ls : List α) :
    ∀ i, (h : i < ls.length) → ls.set i ls[i] = ls := by
  induction ls with
  | nil => intro i h; simp at h
  | cons x xs ih =>
    intro i h
    cases i with
    | zero => rfl
    | succ j =>
      simp only [List.getElem_cons_succ, List.set_cons_succ]
      rw [ih j (by simpa using h)]

theorem length_updateAt (n : Int) (f : PyStr → PyStr) (ls : List PyStr) :
    (updateAt n f ls).length = ls.length := by
  simp only [updateAt]
  split
  · exact List.length_set ls _ _
  · rfl

theorem updateAt_ne_nil (n : Int) (f : PyStr → PyStr) (ls : List PyStr)
    (hne : ls ≠ []) : updateAt n f ls ≠ [] := by
  intro h
  apply hne
  have := length_updateAt n f ls
  rw [h] at this
  exact List.eq_nil_of_length_eq_zero this.symm

theorem updateAt_getElem?_ne (n : Int) (f : PyStr → PyStr) (ls : List PyStr)
    (i : Nat) (hi : (i : Int) ≠ n - 1) :
    (updateAt n f ls)[i]? = ls[i]? := by
  simp only [updateAt]
  split
  · rename_i h
    refine List.getElem?_set_ne ?_
    intro he
    apply hi
    rw [← he, Int.toNat_of_nonneg h.1]
  · rfl

theorem updateAt_id (n : Int) (f : PyStr → PyStr) (ls : List PyStr)
    (hfix : f (ls.getD (n - 1).toNat []) = ls.getD (n - 1).toNat []) :
    updateAt n f ls = ls := by
  simp only [updateAt]
  split
  · rename_i h
    have hb : (n - 1).toNat < ls.length := by omega
    rw [hfix, List.getD_eq_getElem ls [] hb]
    exact set_getElem_self ls _ hb
  · rfl

theorem noNL_updateAt (n : Int) (f : PyStr → PyStr) (ls : List PyStr)
    (hnl : ∀ l ∈ ls, '\n' ∉ l) (hf : ∀ l, '\n' ∉ l → '\n' ∉ f l) :
    ∀ l ∈ updateAt n f ls, '\n' ∉ l := by
  intro l hl
  simp only [updateAt] at hl
  split at hl
  · rename_i h
    rcases List.mem_or_eq_of_mem_set hl with h2 | h2
    · exact hnl l h2
    · subst h2
      apply hf
      have hb : (n - 1).toNat < ls.length := by omega
      rw [List.getD_eq_getElem ls [] hb]
      exact hnl _ (List.getElem_mem hb)
  · exact hnl l hl

theorem splitNL_joinNL_updateAt (n : Int) (f : PyStr → PyStr) (c : PyStr)
    (hf : ∀ l, '\n' ∉ l → '\n' ∉ f l) :
    splitNL (joinNL (updateAt n f (splitNL c))) = updateAt n f (splitNL c) :=
  splitNL_joinNL _ (updateAt_ne_nil n f (splitNL c) (splitNL_ne_nil c))
    (noNL_updateAt n f (splitNL c) (noNL_splitNL c) hf)

theorem lines_fix_unused_request_param (c : PyStr) (n : Int) :
    splitNL (fix_unused_request_param c n) = updateAt n uprLine (splitNL c) :=
  splitNL_joinNL_updateAt n uprLine c noNL_uprLine

theorem lines_fix_explicit_any (c : PyStr) (n : Int) :
    splitNL (fix_explicit_any c n) = updateAt n anyLine (splitNL c) :=
  splitNL_joinNL_updateAt n anyLine c noNL_anyLine

theorem lines_fix_empty_object_type (c : PyStr) (n : Int) :
    splitNL (fix_empty_object_type c n) = updateAt n eotLine (splitNL c) :=
  splitNL_joinNL_updateAt n eotLine c noNL_eotLine

theorem lines_fix_unused_var (c : PyStr) (n : Int) (v : PyStr) (out : PyStr)
    (h : fix_unused_var c n v = some out) :
    splitNL out = updateAt n (uvLine v) (splitNL c) := by
  simp only [fix_unused_var] at h
  split at h
  · rename_i hb
    split at h
    · rename_i hsafe
      simp only [Option.some.injEq] at h
      rw [← h]
      exact splitNL_joinNL_updateAt n (uvLine v) c (noNL_uvLine v hsafe)
    · simp at h
  · rename_i hb
    simp only [Option.some.injEq] at h
    rw [← h, joinNL_splitNL]
    simp only [updateAt]
    rw [if_neg hb]

theorem lines_remove_unused_import (c : PyStr) (n : Int) (v : PyStr)
    (out : PyStr) (h : remove_unused_import c n v = some out) :
    splitNL out = updateAt n (ruiLine v) (splitNL c) := by
  simp only [remove_unused_import] at h
  split at h
  · rename_i hb
    split at h
    · rename_i hsafe
      simp only [Option.some.injEq] at h
      rw [← h]
      exact splitNL_joinNL_updateAt n (ruiLine v) c (noNL_ruiLine v)
    · simp at h
  · rename_i hb
    simp only [Option.some.injEq] at h
    rw [← h, joinNL_splitNL]
    simp only [updateAt]
    rw [if_neg hb]

theorem applyFix_lines (c : PyStr) (n : Int) (t : FixType) (d : PyStr)
    (out : PyStr) (h : applyFix c n t d = some out) :
    splitNL out = updateAt n (lineFn t d) (splitNL c) := by
  cases t with
  | unused_param =>
    simp only [applyFix, Option.some.injEq] at h
    rw [← h]
    exact lines_fix_unused_request_param c n
  | unused_var => exact lines_fix_unused_var c n d out h
  | explicit_any =>
    simp only [applyFix, Option.some.injEq] at h
    rw [← h]
    exact lines_fix_explicit_any c n
  | empty_object =>
    simp only [applyFix, Option.some.injEq] at h
    rw [← h]
    exact lines_fix_empty_object_type c n
  | unused_import => exact lines_remove_unused_import c n d out h

theorem applyFix_oob (c : PyStr) (n : Int) (t : FixType) (d : PyStr)
    (hn : ¬(0 ≤ n - 1 ∧ n - 1 < ((splitNL c).length : Int))) :
    applyFix c n t d = some c := by
  cases t with
  | unused_param =>
    simp only [applyFix, fix_unused_request_param, updateAt, if_neg hn,
      joinNL_splitNL]
  | unused_var =>
    simp only [applyFix, fix_unused_var, if_neg hn, joinNL_splitNL]
  | explicit_any =>
    simp only [applyFix, fix_explicit_any, updateAt, if_neg hn,
      joinNL_splitNL]
  | empty_object =>
    simp only [applyFix, fix_empty_object_type, updateAt, if_neg hn,
      joinNL_splitNL]
  | unused_import =>
    simp only [applyFix, remove_unused_import, if_neg hn, joinNL_splitNL]

theorem applyFix_inb (c : PyStr) (n : Int) (t : FixType) (d : PyStr)
    (hn : 0 ≤ n - 1 ∧ n - 1 < ((splitNL c).length : Int))
    (hsafe : detailUsed t = true → regexSafeDetail d = true) :
    applyFix c n t d = some (joinNL (updateAt n (lineFn t d) (splitNL c))) := by
  cases t with
  | unused_param => rfl
  | unused_var =>
    simp only [applyFix, fix_unused_var, if_pos hn,
      if_pos (hsafe rfl), lineFn]
  | explicit_any => rfl
  | empty_object => rfl
  | unused_import =>
    simp only [applyFix, remove_unused_import, if_pos hn,
      if_pos (hsafe rfl), lineFn]

theorem applyFix_safe (c : PyStr) (n : Int) (t : FixType) (d : PyStr)
    (out : PyStr) (h : applyFix c n t d = some out)
    (hn : 0 ≤ n - 1 ∧ n - 1 < ((splitNL c).length : Int)) :
    detailUsed t = true → regexSafeDetail d = true := by
  intro hd
  cases t with
  | unused_param => simp [detailUsed] at hd
  | explicit_any => simp [detailUsed] at hd
  | empty_object => simp [detailUsed] at hd
  | unused_var =>
    simp only [applyFix, fix_unused_var, if_pos hn] at h
    by_cases hs : regexSafeDetail d = true
    · exact hs
    · rw [if_neg hs] at h
      simp at h
  | unused_import =>
    simp only [applyFix, remove_unused_import, if_pos hn] at h
    by_cases hs : regexSafeDetail d = true
    · exact hs
    · rw [if_neg hs] at h
      simp at h

theorem noRuleMatch_lineFn_id (t : FixType) (d : PyStr) (line : PyStr)
    (hm : noRuleMatch t d line = true) : lineFn t d line = line := by
  cases t with
  | unused_param =>
    simp only [noRuleMatch, List.all_eq_true, Bool.not_eq_true'] at hm
    exact applyFirstAll_id_of_no_search requestPatterns line hm
  | unused_var =>
    simp only [noRuleMatch, List.all_eq_true, Bool.not_eq_true'] at hm
    exact applyFirstOnce_id_of_no_search (varPatterns d) line hm
  | explicit_any =>
    simp only [noRuleMatch, List.all_eq_true, Bool.not_eq_true'] at hm
    exact applyEvery_id_of_no_search anyPatterns line hm
  | empty_object =>
    simp only [noRuleMatch, List.all_eq_true, Bool.not_eq_true'] at hm
    exact applyEvery_id_of_no_search eotPatterns line hm
  | unused_import =>
    simp only [noRuleMatch, Bool.and_eq_true, List.all_eq_true,
      Bool.not_eq_true', Bool.not_eq_true] at hm
    simp only [lineFn, ruiLine]
    rw [if_neg (by simp [hm.1])]
    exact applyEvery_id_of_no_search (ruiSubPatterns d) line hm.2

/-- The ASCII apostrophe character, code 39. -/
def apos : Char := Char.ofNat 39

/-- C1 (counterexample): the claim says the winning sub-pattern of
`unused_param` is applied exactly once, to the leftmost match only.  On the
line `request: request:` the first sub-pattern matches twice and
`fix_unused_request_param` (whose `re.sub` call passes no count) rewrites
both occurrences, not only the leftmost. -/
theorem claim1_counterexample :
    fix_unused_request_param (str "request: request:") 1 ≠
      str "_request: request:" ∧
    fix_unused_request_param (str "request: request:") 1 =
      str "_request: _request:" := by
  exact ⟨by decide, by decide⟩

/-- C1 (amended): for `unused_param` and `unused_var` the ordered
sub-patterns are tried in sequence and the first whose pattern matches
anywhere in the line wins; no later sub-pattern is applied.  For
`unused_var` the winning replacement is applied once, to the leftmost
match only (`count=1`); for `unused_param` it is applied to every match on
the line.  The first two conjuncts tie the rules to the first-match loops
on the target line; the next two state the first-match-wins selection; the
last shows `unused_var` rewriting only the leftmost of two matches. -/
theorem claim1_amended :
    (∀ c n, splitNL (fix_unused_request_param c n) =
      updateAt n (applyFirstAll requestPatterns) (splitNL c)) ∧
    (∀ c n v out, fix_unused_var c n v = some out →
      splitNL out = updateAt n (applyFirstOnce (varPatterns v)) (splitNL c)) ∧
    (∀ pats p r line, searchA p none line = true →
      applyFirstAll ((p, r) :: pats) line = subAll p r line ∧
      applyFirstOnce ((p, r) :: pats) line = subFirst p r none line) ∧
    (∀ pats p r line, searchA p none line = false →
      applyFirstAll ((p, r) :: pats) line = applyFirstAll pats line ∧
      applyFirstOnce ((p, r) :: pats) line = applyFirstOnce pats line) ∧
    fix_unused_var (str "x: x:") 1 (str "x") = some (str "_x: x:") := by
  refine ⟨?_, ?_, ?_, ?_, by decide⟩
  · intro c n
    exact lines_fix_unused_request_param c n
  · intro c n v out h
    exact lines_fix_unused_var c n v out h
  · intro pats p r line h
    exact ⟨by simp only [applyFirstAll, if_pos h],
      by simp only [applyFirstOnce, if_pos h]⟩
  · intro pats p r line h
    have hne : ¬(searchA p none line = true) := by simp [h]
    exact ⟨by simp only [applyFirstAll, if_neg hne],
      by simp only [applyFirstOnce, if_neg hne]⟩

/-- C1 (witness): the amended claim instantiated for `unused_var` on the
document `x: y` at line 1 with detail `x`. -/
theorem claim1_witness :
    splitNL (str "_x: y") =
      updateAt 1 (applyFirstOnce (varPatterns (str "x")))
        (splitNL (str "x: y")) :=
  claim1_amended.2.1 (str "x: y") 1 (str "x") (str "_x: y") (by decide)

/-- C2: for every document, target line number, category and detail, a
successful application of the rewrite engine leaves every line other than
the targeted one byte-identical: line `i + 1` (1-based) is unchanged
whenever `i + 1` differs from the target. -/
theorem claim2_frame : ∀ c n t d out, applyFix c n t d = some out →
    ∀ i : Nat, (i : Int) ≠ n - 1 → (splitNL out)[i]? = (splitNL c)[i]? := by
  intro c n t d out h i hi
  rw [applyFix_lines c n t d out h]
  exact updateAt_getElem?_ne n (lineFn t d) (splitNL c) i hi

/-- C2 (witness): fixing line 2 of `a\nrequest: x` leaves line 1
unchanged. -/
theorem claim2_witness :
    (splitNL (str "a\n_request: x"))[0]? =
      (splitNL (str "a\nrequest: x"))[0]? :=
  claim2_frame (str "a\nrequest: x") 2 FixType.unused_param []
    (str "a\n_request: x") (by decide) 0 (by decide)

/-- C3 (counterexample): the claim says no rule ever raises, for every
detail string including ones containing regex metacharacters.  With detail
`(` and an in-bounds target line, `fix_unused_var` interpolates the detail
into `rf'\bconst\s+{var_name}\b'`, producing an invalid pattern; CPython
raises `re.error` at the first `re.search`, modelled here as `none`. -/
theorem claim3_counterexample :
    fix_unused_var (str "const (x") 1 (str "(") = none := by decide

/-- C3 (amended): for every detail that is a plain identifier (nonempty,
word characters only) every rule returns normally, and when no sub-pattern
of the selected rule matches the target line the document is returned
unchanged. -/
theorem claim3_amended : ∀ c n t d, regexSafeDetail d = true →
    ∃ out, applyFix c n t d = some out ∧
      (noRuleMatch t d ((splitNL c).getD (n - 1).toNat []) = true →
        out = c) := by
  intro c n t d hd
  by_cases hn : 0 ≤ n - 1 ∧ n - 1 < ((splitNL c).length : Int)
  · refine ⟨joinNL (updateAt n (lineFn t d) (splitNL c)),
      applyFix_inb c n t d hn (fun _ => hd), ?_⟩
    intro hm
    rw [updateAt_id n (lineFn t d) (splitNL c)
      (noRuleMatch_lineFn_id t d _ hm), joinNL_splitNL]
  · exact ⟨c, applyFix_oob c n t d hn, fun _ => rfl⟩

/-- C3 (witness): the amended claim instantiated for `unused_import` with
identifier detail `q` on the single-line document `const x = 1`, whose
target line matches no sub-pattern, so the document is unchanged. -/
theorem claim3_witness :
    ∃ out, applyFix (str "const x = 1") 1 FixType.unused_import (str "q") =
      some out ∧
      (noRuleMatch FixType.unused_import (str "q")
        ((splitNL (str "const x = 1")).getD ((1 : Int) - 1).toNat []) =
          true → out = str "const x = 1") :=
  claim3_amended (str "const x = 1") 1 FixType.unused_import (str "q")
    (by decide)

/-- C4 (counterexample): the claim says every rule is idempotent.  With
detail `x` on the line `x: y, x: z`, `fix_unused_var` rewrites only the
leftmost match (`count=1`), so a second application rewrites the remaining
`x:` token and changes the line again. -/
theorem claim4_counterexample :
    fix_unused_var (str "x: y, x: z") 1 (str "x") =
      some (str "_x: y, x: z") ∧
    fix_unused_var (str "_x: y, x: z") 1 (str "x") =
      some (str "_x: y, _x: z") ∧
    str "_x: y, _x: z" ≠ str "_x: y, x: z" := by
  exact ⟨by decide, by decide, by decide⟩

/-- C4 (amended): a second application of the same rule yields no further
change when no sub-pattern of the rule matches the once-fixed target line;
in general a second application may rewrite remaining matching tokens
(later occurrences under `unused_var`'s `count=1`, or occurrences of a
later sub-pattern).  In particular the spec's `unused_param` example line
is idempotent. -/
theorem claim4_amended :
    (∀ t d c n out, applyFix c n t d = some out →
      noRuleMatch t d ((splitNL out).getD (n - 1).toNat []) = true →
      applyFix out n t d = some out) ∧
    fix_unused_request_param
      (str "export async function GET(request: Request) \x7b") 1 =
      str "export async function GET(_request: Request) \x7b" ∧
    fix_unused_request_param
      (str "export async function GET(_request: Request) \x7b") 1 =
      str "export async function GET(_request: Request) \x7b" := by
  refine ⟨?_, by decide, by decide⟩
  intro t d c n out h hm
  by_cases hn : 0 ≤ n - 1 ∧ n - 1 < ((splitNL out).length : Int)
  · have hlen : (splitNL out).length = (splitNL c).length := by
      rw [applyFix_lines c n t d out h]
      exact length_updateAt n (lineFn t d) (splitNL c)
    have hnc : 0 ≤ n - 1 ∧ n - 1 < ((splitNL c).length : Int) :=
      ⟨hn.1, by rw [← hlen]; exact hn.2⟩
    have hsafe := applyFix_safe c n t d out h hnc
    rw [applyFix_inb out n t d hn hsafe]
    rw [updateAt_id n (lineFn t d) (splitNL out)
      (noRuleMatch_lineFn_id t d _ hm), joinNL_splitNL]
  · exact applyFix_oob out n t d hn

/-- C4 (witness): the amended claim instantiated on the spec's
`unused_param` example line: after the first fix, no sub-pattern matches,
and the second application returns the document unchanged. -/
theorem claim4_witness :
    applyFix (str "export async function GET(_request: Request) \x7b") 1
      FixType.unused_param [] =
      some (str "export async function GET(_request: Request) \x7b") :=
  claim4_amended.1 FixType.unused_param []
    (str "export async function GET(request: Request) \x7b") 1
    (str "export async function GET(_request: Request) \x7b")
    (by decide) (by decide)

/-- C5: `unused_import` with detail `Foo` blanks the single-import line
`import { Foo } from 'x';` to the empty line, and rewrites
`import { Foo, Bar } from 'x';` to `import { Bar } from 'x';` with no
dangling comma and no empty-braces artifact. -/
theorem claim5_unused_import_examples :
    remove_unused_import
      (str "import \x7b Foo \x7d from " ++ [apos, 'x', apos, ';']) 1
      (str "Foo") = some [] ∧
    remove_unused_import
      (str "import \x7b Foo, Bar \x7d from " ++ [apos, 'x', apos, ';']) 1
      (str "Foo") =
      some (str "import \x7b Bar \x7d from " ++ [apos, 'x', apos, ';']) := by
  exact ⟨by decide, by decide⟩

/-- C6: `explicit_any` applies all three of its substitutions to the
target line, each at every occurrence (its per-line rewrite is the
unconditional chain of the three `re.sub` calls, not a first-match-wins
loop); in particular `function f(x: any): any {` becomes
`function f(x: unknown): unknown {` with both occurrences replaced, and a
line containing all three forms has all three rewritten. -/
theorem claim6_explicit_any :
    (∀ c n, splitNL (fix_explicit_any c n) =
      updateAt n anyLine (splitNL c)) ∧
    (∀ line, anyLine line =
      subAll ([RAtom.wb] ++ litsOf "as" ++ [RAtom.ws1] ++ litsOf "any" ++
          [RAtom.wb]) (str "as unknown")
        (subAll (litsOf "<any>") (str "<unknown>")
          (subAll ([RAtom.lit ':', RAtom.ws0] ++ litsOf "any" ++ [RAtom.wb])
            (str ": unknown") line))) ∧
    fix_explicit_any (str "function f(x: any): any \x7b") 1 =
      str "function f(x: unknown): unknown \x7b" ∧
    fix_explicit_any (str "const a = b as any; let c: any = <any>d;") 1 =
      str "const a = b as unknown; let c: unknown = <unknown>d;" := by
  exact ⟨lines_fix_explicit_any, fun line => rfl, by decide, by decide⟩

/-- C7: every successful rewrite preserves the number of lines of the
document; in particular `unused_import` blanks a single-import line to the
empty string instead of deleting it, keeping a 3-line document at 3
lines. -/
theorem claim7_line_count :
    (∀ c n t d out, applyFix c n t d = some out →
      (splitNL out).length = (splitNL c).length) ∧
    remove_unused_import (str "a\nimport \x7b Foo \x7d from x;\nb") 2
      (str "Foo") = some (str "a\n\nb") ∧
    (splitNL (str "a\n\nb")).length = 3 := by
  refine ⟨?_, by decide, by decide⟩
  intro c n t d out h
  rw [applyFix_lines c n t d out h]
  exact length_updateAt n (lineFn t d) (splitNL c)

/-- C7 (witness): the line-count conjunct instantiated on blanking line 2
of a 3-line document. -/
theorem claim7_witness :
    (splitNL (str "a\n\nb")).length =
      (splitNL (str "a\nimport \x7b Foo \x7d from x;\nb")).length :=
  claim7_line_count.1 (str "a\nimport \x7b Foo \x7d from x;\nb") 2
    FixType.unused_import (str "Foo") (str "a\n\nb") (by decide)

/-- C8: for every out-of-bounds target line number (zero, negative, or
greater than the line count) every rule returns the document byte-identical
and does not raise, for every detail (the bounds check precedes any use of
the detail). -/
theorem claim8_out_of_bounds : ∀ c n t d,
    n ≤ 0 ∨ ((splitNL c).length : Int) < n → applyFix c n t d = some c := by
  intro c n t d h
  apply applyFix_oob
  intro hc
  rcases hc with ⟨h1, h2⟩
  rcases h with h | h
  · omega
  · omega

/-- C8 (witness): line 5 of a 2-line document is out of bounds; the
document is returned unchanged even with a detail present. -/
theorem claim8_witness :
    applyFix (str "a\nb") 5 FixType.unused_var (str "x") =
      some (str "a\nb") :=
  claim8_out_of_bounds (str "a\nb") 5 FixType.unused_var (str "x")
    (Or.inr (by decide))

/-- C9: the result of the `unused_param` rule is independent of the detail:
`main` dispatches `fix_unused_request_param(content, line_num)` without
passing `detail`, so any two details give identical output. -/
theorem claim9_detail_independent : ∀ c n d1 d2,
    applyFix c n FixType.unused_param d1 =
      applyFix c n FixType.unused_param d2 := by
  intro c n d1 d2
  rfl

/-- C10: in the destructured-removal branch of `unused_import` the detail
is matched as a bare substring with no word-boundary anchoring and every
occurrence is removed: with detail `Foo`, the line
`import { Food, Foo } from 'x';` is mutilated to
`import {d} from 'x';`. -/
theorem claim10_substring_removal :
    remove_unused_import
      (str "import \x7b Food, Foo \x7d from " ++ [apos, 'x', apos, ';']) 1
      (str "Foo") =
      some (str "import \x7bd\x7d from " ++ [apos, 'x', apos, ';']) := by
  decide
